import Mathlib

/-
  Verification development for the game-state core of `src/learn/tetris.py`.

  The Python source is shallowly embedded below: pure functions become Lean
  functions, the mutable dict of locked cells becomes an association list
  (`Locked`), and the lock sequence of the main loop (lines 286-304 of the
  source) becomes the explicit state transformer `lockStep`.
-/

set_option maxRecDepth 4000

namespace Tetris

/-- Colors are RGB triples, exactly as the Python tuples. -/
abbrev Color := Nat × Nat × Nat

/-- Module constant `BLACK = (0, 0, 0)`. -/
def BLACK : Color := (0, 0, 0)

/-- Module constant `COLORS` (one color per shape index). -/
def COLORS : List Color :=
  [(0, 240, 240), (0, 0, 240), (240, 160, 0), (240, 240, 0),
   (0, 240, 0), (160, 0, 240), (240, 0, 0)]

/-- Module constant `COLS = 10`. -/
def COLS : Int := 10

/-- Module constant `ROWS = 20`. -/
def ROWS : Int := 20

/-- Module constant `SHAPES`: the 7 base patterns as lists of row strings. -/
def SHAPES : List (List String) :=
  [["....",
    "IIII",
    "....",
    "...."],
   ["J..",
    "JJJ",
    "..."],
   ["..L",
    "LLL",
    "..."],
   ["OO",
    "OO"],
   [".SS",
    "SS.",
    "..."],
   [".T.",
    "TTT",
    "..."],
   ["ZZ.",
    ".ZZ",
    "..."]]

/-- The 4x4 padded working grid of `rotations_from_pattern`: cell (r, c) is
`pattern[r][c]` when present, `'.'` otherwise (the grid is initialized to
`'.'` and only the pattern's cells are overwritten). -/
def padPattern (pattern : List String) : List (List Char) :=
  (List.range 4).map fun r =>
    (List.range 4).map fun c => ((pattern.getD r "").toList).getD c '.'

/-- The coordinate-collection loop of `rotations_from_pattern`: all (r, c)
with `mat[r][c] != '.'`, scanned row-major as in the source. -/
def coordsOf (mat : List (List Char)) : List (Int × Int) :=
  (List.range 4).foldr
    (fun r acc =>
      ((List.range 4).foldr
        (fun c acc2 =>
          if (mat.getD r []).getD c '.' ≠ '.' then
            ((r : Int), (c : Int)) :: acc2
          else acc2) []) ++ acc) []

/-- Python `min` over a nonempty list (0 for the empty list, which never
occurs: every pattern has at least one filled cell in every rotation). -/
def minList : List Int → Int
  | [] => 0
  | x :: t => t.foldl min x

/-- Insert into a lexicographically sorted list of coordinate pairs. -/
def insertLex (a : Int × Int) : List (Int × Int) → List (Int × Int)
  | [] => [a]
  | b :: t =>
    if a.1 < b.1 ∨ (a.1 = b.1 ∧ a.2 ≤ b.2) then a :: b :: t
    else b :: insertLex a t

/-- Python `sorted` on coordinate pairs (ascending lexicographic order);
insertion sort gives the same result on the duplicate-free coordinate sets
produced here. -/
def sortLex (l : List (Int × Int)) : List (Int × Int) :=
  l.foldr insertLex []

/-- One 90-degree rotation of the 4x4 working grid: the source computes
`mat = [list(row) for row in zip(*mat[::-1])]`, i.e. `new[r][c] = old[3-c][r]`
for a 4x4 matrix. -/
def rot90 (mat : List (List Char)) : List (List Char) :=
  (List.range 4).map fun r =>
    (List.range 4).map fun c => (mat.getD (3 - c) []).getD r '.'

/-- The 4-iteration loop body of `rotations_from_pattern`: normalize the
current grid's coordinates, append if new, rotate the grid. -/
def rotStatesAux : Nat → List (List Char) → List (List (Int × Int)) →
    List (List (Int × Int))
  | 0, _, states => states
  | n + 1, mat, states =>
    let coords := coordsOf mat
    let mr := minList (coords.map Prod.fst)
    let mc := minList (coords.map Prod.snd)
    let norm := sortLex (coords.map fun rc => (rc.1 - mr, rc.2 - mc))
    let states1 := if norm ∈ states then states else states ++ [norm]
    rotStatesAux n (rot90 mat) states1

/-- Source function `rotations_from_pattern` (lines 69-93). -/
def rotations_from_pattern (pattern : List String) : List (List (Int × Int)) :=
  rotStatesAux 4 (padPattern pattern) []

/-- Module constant `SHAPES_ROT = [rotations_from_pattern(p) for p in SHAPES]`. -/
def SHAPES_ROT : List (List (List (Int × Int))) :=
  SHAPES.map rotations_from_pattern

/-- Class `Piece` (lines 97-104): position, shape index and rotation index.
The rotation index is an `Int` because Python computes it with `%`, whose
semantics on negatives matches `Int.emod`. -/
structure Piece where
  x : Int
  y : Int
  shape_idx : Nat
  rot : Int
  deriving DecidableEq

/-- Python `len(piece.states)` where `states = SHAPES_ROT[shape_idx]`. -/
def numStates (p : Piece) : Int :=
  ((SHAPES_ROT.getD p.shape_idx []).length : Int)

/-- Python `piece.states[piece.rot]` (the rotation index is maintained in
`[0, len(states))` by the game loop; out-of-range indices default to `[]`). -/
def stateOf (p : Piece) : List (Int × Int) :=
  (SHAPES_ROT.getD p.shape_idx []).getD p.rot.toNat []

/-- Method `Piece.get_cells` with no offsets (lines 106-112): absolute cells
`(x + c, y + r)`, in the order of the sorted rotation state. -/
def get_cells (p : Piece) : List (Int × Int) :=
  (stateOf p).map fun rc => (p.x + rc.2, p.y + rc.1)

/-- Python `piece.color = COLORS[shape_idx]`. -/
def pieceColor (p : Piece) : Color :=
  COLORS.getD p.shape_idx BLACK

/-- The `locked_positions` dict `(x, y) -> color`, embedded as an association
list with unique keys. -/
abbrev Locked := List ((Int × Int) × Color)

/-- Dict lookup: the value stored at a key, if present. -/
def lookupL : Locked → (Int × Int) → Option Color
  | [], _ => none
  | e :: t, k => if e.1 = k then some e.2 else lookupL t k

/-- Dict assignment `locked[k] = v`: for lookup purposes, remove any old
entry at `k` and add the new one. -/
def insertL (k : Int × Int) (v : Color) (l : Locked) : Locked :=
  (k, v) :: l.filter fun e => !(decide (e.1 = k))

/-- Source function `create_grid` (lines 114-120), as the function giving the
color of grid cell `[r][c]`: `BLACK` everywhere except at in-bounds locked
cells, which are painted with their color. -/
def create_grid (locked : Locked) : Int → Int → Color := fun r c =>
  if 0 ≤ r ∧ r < ROWS ∧ 0 ≤ c ∧ c < COLS then
    (lookupL locked (c, r)).getD BLACK
  else BLACK

/-- Source function `valid_space` (lines 122-128). -/
def valid_space (p : Piece) (locked : Locked) : Bool :=
  (get_cells p).all fun xy =>
    !(decide (xy.1 < 0) || decide (xy.1 ≥ COLS) || decide (xy.2 ≥ ROWS)) &&
    !(decide (xy.2 ≥ 0) && (lookupL locked xy).isSome)

/-- Source function `check_lost` (lines 130-134): some locked cell has
`y < 1`. -/
def check_lost (locked : Locked) : Bool :=
  locked.any fun e => decide (e.1.2 < 1)

/-- Net effect on the locked dict of clearing row `r` inside `clear_rows`
(lines 146-155): delete every `(c, r)` with `0 <= c < COLS`, then move every
cell with `y < r` to `(x, y + 1)`.  The source performs the move by popping
and re-inserting keys in descending `y` order over a snapshot of the key
list; each insertion target `(x, y + 1)` with `y + 1 <= r` was vacated
beforehand (row `r` was just deleted, and larger `y` were processed first),
so the net effect on the mapping is exactly this per-entry transformation. -/
def shiftDown (r : Int) : Locked → Locked
  | [] => []
  | e :: t =>
    if e.1.2 = r ∧ 0 ≤ e.1.1 ∧ e.1.1 < COLS then shiftDown r t
    else if e.1.2 < r then ((e.1.1, e.1.2 + 1), e.2) :: shiftDown r t
    else e :: shiftDown r t

/-- Row-fullness test of `clear_rows` line 144: every column of grid row `r`
differs from `BLACK`.  The grid argument is the snapshot passed in at line
298 and is never updated during the scan. -/
def rowFull (grid : Int → Int → Color) (r : Int) : Bool :=
  (List.range 10).all fun c => decide (grid r (c : Int) ≠ BLACK)

/-- The row scan order `range(ROWS - 1, -1, -1)` of line 143. -/
def rowsDesc : List Int :=
  ((List.range 20).reverse).map fun n => (n : Int)

/-- The row loop of `clear_rows`: for each row (bottom to top), if the
snapshot grid shows it full, count it and apply `shiftDown` to the locked
mapping. -/
def clearRowsGo (grid : Int → Int → Color) : List Int → Locked → Nat × Locked
  | [], l => (0, l)
  | r :: rest, l =>
    if rowFull grid r then
      let p := clearRowsGo grid rest (shiftDown r l)
      (p.1 + 1, p.2)
    else clearRowsGo grid rest l

/-- Source function `clear_rows` (lines 141-156): returns the number of rows
cleared and the resulting locked mapping. -/
def clear_rows (grid : Int → Int → Color) (locked : Locked) : Nat × Locked :=
  clearRowsGo grid rowsDesc locked

/-- The cell-writing loop of the lock sequence (lines 287-292): write each
cell in order, but stop (with `running = False`) at the first cell with
`y < 0`.  Returns the updated mapping and the `running` flag. -/
def lockLoop (color : Color) : List (Int × Int) → Locked → Locked × Bool
  | [], l => (l, true)
  | xy :: rest, l =>
    if xy.2 < 0 then (l, false)
    else lockLoop color rest (insertL xy color l)

/-- The scoring table lookup `{1: 100, 2: 300, 3: 500, 4: 800}.get(cleared,
cleared * 200)` of line 302. -/
def scoreFor (cleared : Nat) : Nat :=
  match cleared with
  | 1 => 100
  | 2 => 300
  | 3 => 500
  | 4 => 800
  | _ => cleared * 200

/-- The session state owned by `main` that the lock sequence touches. -/
structure GameState where
  locked : Locked
  current : Piece
  next : Piece
  score : Nat
  lines : Nat
  level : Nat
  running : Bool
  deriving DecidableEq

/-- The lock sequence of `main` (lines 286-304): write the current piece's
cells (stopping with `running = False` at a cell above the top), promote
`next_piece`, draw a fresh next piece (`fresh`, standing for the random
`get_random_piece()` result), rebuild the grid snapshot, clear rows, and
update score, total lines and level when rows were cleared. -/
def lockStep (s : GameState) (fresh : Piece) : GameState :=
  let lw := lockLoop (pieceColor s.current) (get_cells s.current) s.locked
  let cr := clear_rows (create_grid lw.1) lw.1
  let lines1 := if 0 < cr.1 then s.lines + cr.1 else s.lines
  { locked := cr.2
    current := s.next
    next := fresh
    score := if 0 < cr.1 then s.score + scoreFor cr.1 else s.score
    lines := lines1
    level := if 0 < cr.1 then lines1 / 10 + 1 else s.level
    running := lw.2 }

/-- The number of rows cleared by the lock sequence from state `s` (the
value `cleared` of line 298). -/
def clearedOf (s : GameState) : Nat :=
  (clear_rows
    (create_grid (lockLoop (pieceColor s.current) (get_cells s.current) s.locked).1)
    (lockLoop (pieceColor s.current) (get_cells s.current) s.locked).1).1

/-- Rotation advance of the rotate intent (line 259):
`rot = (rot + 1) % len(states)`. -/
def rotAdvance (p : Piece) : Piece :=
  { p with rot := (p.rot + 1) % numStates p }

/-- Rotation revert after all kicks fail (line 270):
`rot = (rot - 1) % len(states)`. -/
def rotRevert (p : Piece) : Piece :=
  { p with rot := (p.rot - 1) % numStates p }

/-- Horizontal shift `piece.x += dx`. -/
def shiftX (p : Piece) (dx : Int) : Piece :=
  { p with x := p.x + dx }

/-- The wall-kick loop (lines 262-268): try each offset in order, keeping
the first shift that yields a valid placement; each failed offset is fully
reverted (`x -= dx`) before the next is tried. -/
def tryKicks : List Int → Piece → Locked → Option Piece
  | [], _, _ => none
  | dx :: rest, p, l =>
    if valid_space (shiftX p dx) l then some (shiftX p dx)
    else tryKicks rest p l

/-- The rotate intent (lines 258-270): advance the rotation; if invalid, try
the kicks `-1, 1, -2, 2`; if none succeeds, revert the rotation (the column
is already back at its original value). -/
def rotateIntent (p : Piece) (l : Locked) : Piece :=
  let pr := rotAdvance p
  if valid_space pr l then pr
  else
    match tryKicks [-1, 1, -2, 2] pr l with
    | some q => q
    | none => rotRevert pr

/-- The hard-drop loop (lines 273-275) with explicit fuel: descend while the
placement is valid, then step back up one row; `none` means the fuel ran out
before the loop exited. -/
def hardDropAux : Nat → Piece → Locked → Option Piece
  | 0, p, l =>
    if valid_space p l then none else some { p with y := p.y - 1 }
  | fuel + 1, p, l =>
    if valid_space p l then hardDropAux fuel { p with y := p.y + 1 } l
    else some { p with y := p.y - 1 }

/-- Every key of the locked mapping is on the visible board:
`0 <= x < COLS` and `0 <= y < ROWS`. -/
def inBoundsB (l : Locked) : Bool :=
  l.all fun e =>
    decide (0 ≤ e.1.1 ∧ e.1.1 < COLS ∧ 0 ≤ e.1.2 ∧ e.1.2 < ROWS)

/-- The head of a rotation state has the minimal row offset (true of every
state in the catalog, because states are sorted lexicographically). -/
def headMinRB : List (Int × Int) → Bool
  | [] => true
  | a :: t => t.all fun b => decide (a.1 ≤ b.1)

/-! ### Concrete instances used by the claims and witnesses -/

/-- Cyan, the color of the I piece. -/
def cyan : Color := (0, 240, 240)

/-- An O piece at position `(x, y)` (shape index 3). -/
def pieceO (x y : Int) : Piece := ⟨x, y, 3, 0⟩

/-- An I piece at position `(x, y)` (shape index 0), rotation 0. -/
def pieceI (x y : Int) : Piece := ⟨x, y, 0, 0⟩

/-- A fully filled row `r`: cells `(0, r) .. (9, r)`. -/
def fullRow (r : Int) : Locked :=
  (List.range 10).map fun c => (((c : Int), r), cyan)

/-- Board for the C1 counterexample: rows 18 and 19 completely filled, plus
a single survivor cell at `(0, 17)`. -/
def lockedC1 : Locked := fullRow 18 ++ fullRow 19 ++ [((0, 17), cyan)]

/-- Board for the C6 instance: row 19 completely filled, plus a single cell
at `(0, 18)`. -/
def lockedC6 : Locked := fullRow 19 ++ [((0, 18), cyan)]

/-- Session state for the C2 failing input: an O piece locking at rows 0-1
on top of a small stack at row 2. -/
def stateC2 : GameState :=
  { locked := [((4, 2), cyan), ((5, 2), cyan)]
    current := pieceO 4 0
    next := pieceO 3 (-1)
    score := 0, lines := 0, level := 1, running := true }

/-- Session state for the C4 counterexample: the O piece locks harmlessly at
the bottom, but the next piece's spawn cells `(3, 0)` and `(4, 0)` are
already occupied. -/
def stateC4 : GameState :=
  { locked := [((3, 0), cyan), ((4, 0), cyan)]
    current := pieceO 0 18
    next := pieceO 3 (-1)
    score := 0, lines := 0, level := 1, running := true }

/-- Session state for the C3 witness: the current piece sits entirely above
the board (all cells have `y < 0`). -/
def stateC3 : GameState :=
  { locked := [((4, 2), cyan), ((5, 2), cyan)]
    current := pieceO 4 (-2)
    next := pieceO 3 (-1)
    score := 0, lines := 0, level := 1, running := true }

/-- Session state for the C7 witness: the O piece completes row 19 (columns
4 and 5 were the only gaps). -/
def stateC7 : GameState :=
  { locked :=
      ((List.range 4).map fun c => (((c : Int), (19 : Int)), cyan)) ++
      ((List.range 4).map fun c => (((c : Int) + 6, (19 : Int)), cyan))
    current := pieceO 4 18
    next := pieceO 3 (-1)
    score := 0, lines := 0, level := 1, running := true }

/-! ### Helper lemmas -/

/-- A row scan that finds no full row leaves the mapping untouched. -/
theorem clearRowsGo_all_false (g : Int → Int → Color) :
    ∀ (rows : List Int) (l : Locked),
      (∀ r ∈ rows, rowFull g r = false) →
      clearRowsGo g rows l = (0, l) := by
  intro rows
  induction rows with
  | nil => intro l _; rfl
  | cons r rest ih =>
    intro l h
    have hr : rowFull g r = false := h r (List.mem_cons_self r rest)
    unfold clearRowsGo
    rw [hr]
    simp only [Bool.false_eq_true, if_false]
    exact ih l fun r' hr' => h r' (List.mem_cons_of_mem _ hr')

/-- A row scan whose snapshot shows exactly one full row `r0` clears exactly
that row: it returns count 1 and applies `shiftDown r0` once. -/
theorem clearRowsGo_single (g : Int → Int → Color) :
    ∀ (rows : List Int) (l : Locked) (r0 : Int),
      rows.Nodup → r0 ∈ rows → rowFull g r0 = true →
      (∀ r ∈ rows, r ≠ r0 → rowFull g r = false) →
      clearRowsGo g rows l = (1, shiftDown r0 l) := by
  intro rows
  induction rows with
  | nil => intro l r0 _ h; cases h
  | cons r rest ih =>
    intro l r0 hnd hmem hfull hoth
    by_cases hr : r = r0
    · subst hr
      unfold clearRowsGo
      rw [hfull]
      simp only [if_true]
      have hnotmem : r ∉ rest := (List.nodup_cons.mp hnd).1
      have hrest : ∀ r' ∈ rest, rowFull g r' = false := by
        intro r' hr'
        exact hoth r' (List.mem_cons_of_mem _ hr') (by rintro rfl; exact hnotmem hr')
      rw [clearRowsGo_all_false g rest (shiftDown r l) hrest]
    · have hmem' : r0 ∈ rest := by
        rcases List.mem_cons.mp hmem with h | h
        · exact absurd h.symm hr
        · exact h
      have hrf : rowFull g r = false :=
        hoth r (List.mem_cons_self r rest) hr
      unfold clearRowsGo
      rw [hrf]
      simp only [Bool.false_eq_true, if_false]
      exact ih l r0 (List.nodup_cons.mp hnd).2 hmem' hfull
        fun r' h1 h2 => hoth r' (List.mem_cons_of_mem _ h1) h2

/-- Cells strictly below the cleared row are unchanged by `shiftDown`. -/
theorem lookupL_shiftDown_gt (r x y : Int) (h : r < y) :
    ∀ l : Locked, lookupL (shiftDown r l) (x, y) = lookupL l (x, y) := by
  intro l
  induction l with
  | nil => rfl
  | cons e t ih =>
    obtain ⟨⟨ex, ey⟩, ev⟩ := e
    show lookupL
        (if ey = r ∧ 0 ≤ ex ∧ ex < COLS then shiftDown r t
         else if ey < r then ((ex, ey + 1), ev) :: shiftDown r t
         else ((ex, ey), ev) :: shiftDown r t) (x, y) =
      lookupL (((ex, ey), ev) :: t) (x, y)
    by_cases h1 : ey = r ∧ 0 ≤ ex ∧ ex < COLS
    · rw [if_pos h1, ih]
      show lookupL t (x, y) =
        if ((ex, ey) : Int × Int) = (x, y) then some ev else lookupL t (x, y)
      rw [if_neg]
      simp only [Prod.mk.injEq, not_and]
      intro _ hy
      omega
    · rw [if_neg h1]
      by_cases h2 : ey < r
      · rw [if_pos h2]
        show (if ((ex, ey + 1) : Int × Int) = (x, y) then some ev
              else lookupL (shiftDown r t) (x, y)) =
          if ((ex, ey) : Int × Int) = (x, y) then some ev else lookupL t (x, y)
        rw [if_neg (by simp only [Prod.mk.injEq, not_and]; intro _ hy; omega),
          if_neg (by simp only [Prod.mk.injEq, not_and]; intro _ hy; omega), ih]
      · rw [if_neg h2]
        show (if ((ex, ey) : Int × Int) = (x, y) then some ev
              else lookupL (shiftDown r t) (x, y)) =
          if ((ex, ey) : Int × Int) = (x, y) then some ev else lookupL t (x, y)
        by_cases h3 : ((ex, ey) : Int × Int) = (x, y)
        · rw [if_pos h3, if_pos h3]
        · rw [if_neg h3, if_neg h3, ih]

/-- Cells strictly above the cleared row move down by exactly one row. -/
theorem lookupL_shiftDown_lt (r x y : Int) (h : y < r) :
    ∀ l : Locked, lookupL (shiftDown r l) (x, y) = lookupL l (x, y - 1) := by
  intro l
  induction l with
  | nil => rfl
  | cons e t ih =>
    obtain ⟨⟨ex, ey⟩, ev⟩ := e
    show lookupL
        (if ey = r ∧ 0 ≤ ex ∧ ex < COLS then shiftDown r t
         else if ey < r then ((ex, ey + 1), ev) :: shiftDown r t
         else ((ex, ey), ev) :: shiftDown r t) (x, y) =
      lookupL (((ex, ey), ev) :: t) (x, y - 1)
    by_cases h1 : ey = r ∧ 0 ≤ ex ∧ ex < COLS
    · rw [if_pos h1, ih]
      show lookupL t (x, y - 1) =
        if ((ex, ey) : Int × Int) = (x, y - 1) then some ev else lookupL t (x, y - 1)
      rw [if_neg (by simp only [Prod.mk.injEq, not_and]; intro _ hy; omega)]
    · rw [if_neg h1]
      by_cases h2 : ey < r
      · rw [if_pos h2]
        show (if ((ex, ey + 1) : Int × Int) = (x, y) then some ev
              else lookupL (shiftDown r t) (x, y)) =
          if ((ex, ey) : Int × Int) = (x, y - 1) then some ev else lookupL t (x, y - 1)
        by_cases h3 : ((ex, ey) : Int × Int) = (x, y - 1)
        · rw [if_pos h3, if_pos (by simp only [Prod.mk.injEq] at h3 ⊢; omega)]
        · rw [if_neg h3,
            if_neg (by simp only [Prod.mk.injEq] at h3 ⊢; omega), ih]
      · rw [if_neg h2]
        show (if ((ex, ey) : Int × Int) = (x, y) then some ev
              else lookupL (shiftDown r t) (x, y)) =
          if ((ex, ey) : Int × Int) = (x, y - 1) then some ev else lookupL t (x, y - 1)
        rw [if_neg (by simp only [Prod.mk.injEq, not_and]; intro _ hy; omega),
          if_neg (by simp only [Prod.mk.injEq, not_and]; intro _ hy; omega), ih]

/-- An in-bounds column of the cleared row itself receives the cell that was
directly above it. -/
theorem lookupL_shiftDown_eq (r x : Int) (hx0 : 0 ≤ x) (hx1 : x < COLS) :
    ∀ l : Locked, lookupL (shiftDown r l) (x, r) = lookupL l (x, r - 1) := by
  intro l
  induction l with
  | nil => rfl
  | cons e t ih =>
    obtain ⟨⟨ex, ey⟩, ev⟩ := e
    show lookupL
        (if ey = r ∧ 0 ≤ ex ∧ ex < COLS then shiftDown r t
         else if ey < r then ((ex, ey + 1), ev) :: shiftDown r t
         else ((ex, ey), ev) :: shiftDown r t) (x, r) =
      lookupL (((ex, ey), ev) :: t) (x, r - 1)
    by_cases h1 : ey = r ∧ 0 ≤ ex ∧ ex < COLS
    · rw [if_pos h1, ih]
      show lookupL t (x, r - 1) =
        if ((ex, ey) : Int × Int) = (x, r - 1) then some ev else lookupL t (x, r - 1)
      rw [if_neg (by simp only [Prod.mk.injEq, not_and]; intro _ hy; omega)]
    · rw [if_neg h1]
      by_cases h2 : ey < r
      · rw [if_pos h2]
        show (if ((ex, ey + 1) : Int × Int) = (x, r) then some ev
              else lookupL (shiftDown r t) (x, r)) =
          if ((ex, ey) : Int × Int) = (x, r - 1) then some ev else lookupL t (x, r - 1)
        by_cases h3 : ((ex, ey) : Int × Int) = (x, r - 1)
        · rw [if_pos h3, if_pos (by simp only [Prod.mk.injEq] at h3 ⊢; omega)]
        · rw [if_neg h3,
            if_neg (by simp only [Prod.mk.injEq] at h3 ⊢; omega), ih]
      · rw [if_neg h2]
        show (if ((ex, ey) : Int × Int) = (x, r) then some ev
              else lookupL (shiftDown r t) (x, r)) =
          if ((ex, ey) : Int × Int) = (x, r - 1) then some ev else lookupL t (x, r - 1)
        rw [if_neg, if_neg]
        · exact ih
        · simp only [Prod.mk.injEq, not_and]
          intro _ hy
          omega
        · simp only [Prod.mk.injEq, not_and]
          intro hex hy
          exact h1 ⟨hy, by omega, by omega⟩

/-- Membership in the descending row list is exactly being a board row. -/
theorem mem_rowsDesc (r : Int) : r ∈ rowsDesc ↔ 0 ≤ r ∧ r < 20 := by
  have h : rowsDesc =
      [19, 18, 17, 16, 15, 14, 13, 12, 11, 10, 9, 8, 7, 6, 5, 4, 3, 2, 1, 0] := by
    decide
  rw [h]
  simp only [List.mem_cons, List.not_mem_nil, or_false]
  omega

/-- The descending row list has no duplicates. -/
theorem nodup_rowsDesc : rowsDesc.Nodup := by decide

/-- Indexing with a default into a list all of whose members satisfy `f`
yields a value satisfying `f`, provided the default does. -/
theorem all_getD {α : Type} (L : List α) (f : α → Bool) (i : Nat) (d : α)
    (hL : L.all f = true) (hd : f d = true) : f (L.getD i d) = true := by
  unfold List.getD
  cases h : L.get? i with
  | none => simpa [h] using hd
  | some a =>
    have ha : a ∈ L := List.get?_mem h
    simpa [h] using List.all_eq_true.mp hL a ha

/-- Every rotation state in the catalog is sorted, so its head has the
minimal row offset. -/
theorem catalog_headMin :
    (SHAPES_ROT.all fun sts => sts.all headMinRB) = true := by decide

/-- The rotation state of any piece has a head of minimal row offset (for
out-of-range indices the state defaults to `[]`, which satisfies this
trivially). -/
theorem headMinRB_stateOf (p : Piece) : headMinRB (stateOf p) = true := by
  unfold stateOf
  exact all_getD _ _ _ _
    (all_getD _ _ _ _ catalog_headMin rfl) rfl

/-- The cell-writing loop stops immediately, with no write, when the first
cell is above the board. -/
theorem lockLoop_head_neg (color : Color) (xy : Int × Int)
    (cells : List (Int × Int)) (l : Locked) (h : xy.2 < 0) :
    lockLoop color (xy :: cells) l = (l, false) := by
  unfold lockLoop
  rw [if_pos h]

/-- If any cell of a piece lies above the board, so does the first cell of
`get_cells` (cells are listed in sorted state order, topmost row first). -/
theorem get_cells_head_neg (p : Piece)
    (h : ∃ c ∈ get_cells p, c.2 < 0) :
    ∃ c0 rest, get_cells p = c0 :: rest ∧ c0.2 < 0 := by
  obtain ⟨c, hc, hneg⟩ := h
  have hmin := headMinRB_stateOf p
  cases hs : stateOf p with
  | nil =>
    rw [get_cells, hs] at hc
    cases hc
  | cons a t =>
    rw [hs] at hmin
    refine ⟨(p.x + a.2, p.y + a.1), t.map fun rc => (p.x + rc.2, p.y + rc.1),
      by rw [get_cells, hs]; rfl, ?_⟩
    rw [get_cells, hs] at hc
    obtain ⟨b, hb, hcb⟩ := List.mem_map.mp hc
    have hab : a.1 ≤ b.1 := by
      rcases List.mem_cons.mp hb with rfl | hbt
      · exact le_refl _
      · exact of_decide_eq_true (List.all_eq_true.mp hmin b hbt)
    have hby : p.y + b.1 < 0 := by rw [← hcb] at hneg; exact hneg
    simp only
    omega

/-- The cell-writing loop runs to completion (keeping `running = true`) when
every cell is on or below row 0. -/
theorem lockLoop_nonneg_runs (color : Color) :
    ∀ (cells : List (Int × Int)) (l : Locked),
      (∀ c ∈ cells, 0 ≤ c.2) → (lockLoop color cells l).2 = true := by
  intro cells
  induction cells with
  | nil => intro l _; rfl
  | cons c rest ih =>
    intro l h
    unfold lockLoop
    rw [if_neg (by have := h c (List.mem_cons_self c rest); omega)]
    exact ih _ fun c' hc' => h c' (List.mem_cons_of_mem _ hc')

/-- A valid placement keeps every cell inside the side and bottom walls. -/
theorem valid_space_cell_bounds (p : Piece) (l : Locked)
    (h : valid_space p l = true) :
    ∀ c ∈ get_cells p, 0 ≤ c.1 ∧ c.1 < COLS ∧ c.2 < ROWS := by
  intro c hc
  have hcell := List.all_eq_true.mp h c hc
  simp only [Bool.and_eq_true, Bool.not_eq_true', Bool.or_eq_false_iff,
    decide_eq_false_iff_not] at hcell
  obtain ⟨⟨⟨h1, h2⟩, h3⟩, _⟩ := hcell
  omega

/-- Dict assignment at an in-bounds key preserves the bounds invariant. -/
theorem inBoundsB_insertL (k : Int × Int) (v : Color) (l : Locked)
    (hl : inBoundsB l = true)
    (hk : 0 ≤ k.1 ∧ k.1 < COLS ∧ 0 ≤ k.2 ∧ k.2 < ROWS) :
    inBoundsB (insertL k v l) = true := by
  unfold inBoundsB insertL
  simp only [List.all_cons, Bool.and_eq_true, decide_eq_true_eq]
  refine ⟨hk, ?_⟩
  rw [List.all_eq_true]
  intro e he
  exact List.all_eq_true.mp hl e (List.mem_of_mem_filter he)

/-- The cell-writing loop preserves the bounds invariant when fed cells that
respect the side and bottom walls (cells above the top are never written). -/
theorem inBoundsB_lockLoop (color : Color) :
    ∀ (cells : List (Int × Int)) (l : Locked),
      (∀ c ∈ cells, 0 ≤ c.1 ∧ c.1 < COLS ∧ c.2 < ROWS) →
      inBoundsB l = true →
      inBoundsB (lockLoop color cells l).1 = true := by
  intro cells
  induction cells with
  | nil => intro l _ hl; exact hl
  | cons c rest ih =>
    intro l h hl
    unfold lockLoop
    by_cases hneg : c.2 < 0
    · rw [if_pos hneg]
      exact hl
    · rw [if_neg hneg]
      have hb := h c (List.mem_cons_self c rest)
      exact ih _ (fun c' hc' => h c' (List.mem_cons_of_mem _ hc'))
        (inBoundsB_insertL c color l hl ⟨hb.1, hb.2.1, by omega, hb.2.2⟩)

/-- Clearing a row below the bottom wall preserves the bounds invariant:
deleted entries are gone and moved entries land at `y + 1 <= r < ROWS`. -/
theorem inBoundsB_shiftDown (r : Int) (hr : r < ROWS) :
    ∀ l : Locked, inBoundsB l = true → inBoundsB (shiftDown r l) = true := by
  intro l
  induction l with
  | nil => intro _; rfl
  | cons e t ih =>
    intro hl
    unfold inBoundsB at hl
    simp only [List.all_cons, Bool.and_eq_true, decide_eq_true_eq] at hl
    obtain ⟨he, ht⟩ := hl
    unfold shiftDown
    by_cases h1 : e.1.2 = r ∧ 0 ≤ e.1.1 ∧ e.1.1 < COLS
    · rw [if_pos h1]
      exact ih ht
    · rw [if_neg h1]
      by_cases h2 : e.1.2 < r
      · rw [if_pos h2]
        unfold inBoundsB
        simp only [List.all_cons, Bool.and_eq_true, decide_eq_true_eq]
        exact ⟨⟨he.1, he.2.1, by omega, by omega⟩, ih ht⟩
      · rw [if_neg h2]
        unfold inBoundsB
        simp only [List.all_cons, Bool.and_eq_true, decide_eq_true_eq]
        exact ⟨he, ih ht⟩

/-- The row-clearing scan preserves the bounds invariant. -/
theorem inBoundsB_clearRowsGo (g : Int → Int → Color) :
    ∀ (rows : List Int) (l : Locked),
      (∀ r ∈ rows, r < ROWS) → inBoundsB l = true →
      inBoundsB (clearRowsGo g rows l).2 = true := by
  intro rows
  induction rows with
  | nil => intro l _ hl; exact hl
  | cons r rest ih =>
    intro l h hl
    unfold clearRowsGo
    by_cases hf : rowFull g r = true
    · rw [hf]
      simp only [if_true]
      exact ih _ (fun r' hr' => h r' (List.mem_cons_of_mem _ hr'))
        (inBoundsB_shiftDown r (h r (List.mem_cons_self r rest)) l hl)
    · rw [Bool.not_eq_true] at hf
      rw [hf]
      simp only [Bool.false_eq_true, if_false]
      exact ih _ (fun r' hr' => h r' (List.mem_cons_of_mem _ hr')) hl

/-! ### Claim theorems -/

/-- C1: the claim is false of the code.  On a board whose rows 18 and 19 are
both completely filled, with one extra cell at `(0, 17)`, `clear_rows`
reports 2 cleared rows but: a completely full row (row 19, holding the cells
that fell from row 18 and were never removed) remains on the board, the
mapping still holds 10 cells instead of the single expected survivor, and
the cell from the non-full row 17 has been removed entirely (it is neither
at `(0, 18)` nor at `(0, 19)` as the lone survivor would be under a correct
cumulative shift — `(0, 19)` instead holds a leftover of full row 18).
Fullness is tested against the pre-clear grid snapshot, not re-derived
against the post-shift state. -/
theorem C1_clear_rows_double_clear_bug :
    (clear_rows (create_grid lockedC1) lockedC1).1 = 2 ∧
    rowFull (create_grid (clear_rows (create_grid lockedC1) lockedC1).2) 19 = true ∧
    (clear_rows (create_grid lockedC1) lockedC1).2.length = 10 ∧
    ¬ (clear_rows (create_grid lockedC1) lockedC1).2.length = 1 ∧
    lookupL (clear_rows (create_grid lockedC1) lockedC1).2 (0, 18) = none := by
  decide

/-- C2: the claim is false of the code.  An O piece locking at rows 0 and 1
(no cell above the board) leaves the session running even though a locked
cell now sits at row 0, i.e. `check_lost` holds of the resulting board;
`main` never consults `check_lost`. -/
theorem C2_lock_at_row_zero_continues :
    (lockStep stateC2 (pieceO 3 (-1))).running = true ∧
    check_lost (lockStep stateC2 (pieceO 3 (-1))).locked = true := by
  decide

/-- C5 counterexample: the J pattern (shape index 1) and the L pattern
(shape index 2) each produce 4 distinct normalized rotation states, not the
2 the claim asserts for them. -/
theorem C5_J_and_L_have_four_states :
    (SHAPES_ROT.getD 1 []).length = 4 ∧
    (SHAPES_ROT.getD 2 []).length = 4 ∧
    ¬ (SHAPES_ROT.getD 1 []).length = 2 := by
  decide

/-- C5 amended: `rotations_from_pattern` produces, over the 7 patterns in
catalog order (I, J, L, O, S, T, Z), exactly 2, 4, 4, 1, 2, 4 and 2
deduplicated normalized rotation states: 4 for the asymmetric J, L and T,
2 for the 180-degree-symmetric I, S and Z, and 1 for O. -/
theorem C5_rotation_state_counts :
    SHAPES_ROT.map List.length = [2, 4, 4, 1, 2, 4, 2] := by
  decide

/-- C4 counterexample: a lock event that does not end the game promotes
`next_piece` whose placement is invalid on the updated board (its spawn
cells are already occupied), yet the session keeps running — no
`valid_space` check follows the promotion in `main`. -/
theorem C4_no_spawn_validity_check :
    (lockStep stateC4 (pieceO 3 (-1))).running = true ∧
    (lockStep stateC4 (pieceO 3 (-1))).current = stateC4.next ∧
    valid_space (lockStep stateC4 (pieceO 3 (-1))).current
      (lockStep stateC4 (pieceO 3 (-1))).locked = false := by
  decide

/-- C6: on a board whose grid snapshot has exactly one full row `r0`,
`clear_rows` returns count 1 and performs exactly one `shiftDown r0`; hence
cells below `r0` are unchanged, every cell above `r0` moves down by exactly
one row (position `(x, y)` with `y <= r0` afterwards holds what `(x, y - 1)`
held, so row `r0`'s own cells are removed); and in the concrete instance
with row 19 entirely filled and `(0, 18)` the only other cell, `(0, 18)`
ends up at `(0, 19)` and the cell count drops by 10. -/
theorem C6_single_full_row_clear (l : Locked) (r0 : Int)
    (h0 : 0 ≤ r0) (h1 : r0 < 20)
    (hfull : rowFull (create_grid l) r0 = true)
    (hoth : ∀ r ∈ rowsDesc, r ≠ r0 → rowFull (create_grid l) r = false) :
    clear_rows (create_grid l) l = (1, shiftDown r0 l) ∧
    (∀ x y : Int, r0 < y →
      lookupL (shiftDown r0 l) (x, y) = lookupL l (x, y)) ∧
    (∀ x y : Int, y < r0 →
      lookupL (shiftDown r0 l) (x, y) = lookupL l (x, y - 1)) ∧
    (∀ x : Int, 0 ≤ x → x < COLS →
      lookupL (shiftDown r0 l) (x, r0) = lookupL l (x, r0 - 1)) ∧
    (clear_rows (create_grid lockedC6) lockedC6).1 = 1 ∧
    lookupL (clear_rows (create_grid lockedC6) lockedC6).2 (0, 19) = some cyan ∧
    lookupL (clear_rows (create_grid lockedC6) lockedC6).2 (0, 18) = none ∧
    (clear_rows (create_grid lockedC6) lockedC6).2.length + 10 =
      lockedC6.length := by
  refine ⟨?_, ?_, ?_, ?_, by decide, by decide, by decide, by decide⟩
  · exact clearRowsGo_single (create_grid l) rowsDesc l r0 nodup_rowsDesc
      ((mem_rowsDesc r0).mpr ⟨h0, h1⟩) hfull hoth
  · exact fun x y hy => lookupL_shiftDown_gt r0 x y hy l
  · exact fun x y hy => lookupL_shiftDown_lt r0 x y hy l
  · exact fun x hx0 hx1 => lookupL_shiftDown_eq r0 x hx0 hx1 l

/-- C6 witness: the general theorem applied to the concrete one-full-row
board (row 19 full, survivor at `(0, 18)`). -/
theorem C6_single_full_row_clear_witness :
    clear_rows (create_grid lockedC6) lockedC6 = (1, shiftDown 19 lockedC6) ∧
    lookupL (shiftDown 19 lockedC6) (5, 12) = lookupL lockedC6 (5, 11) := by
  have h := C6_single_full_row_clear lockedC6 19 (by decide) (by decide)
    (by decide) (by decide)
  exact ⟨h.1, h.2.2.1 5 12 (by decide)⟩

/-- C3: when the current piece has any absolute cell with `row < 0` at lock
time, the session stops (`running = false`) and the cell-writing loop writes
nothing at all — including the piece's cells with `row >= 0` — because the
cells are listed topmost-first, so the very first iteration breaks.
Consequently, whenever the board's snapshot has no full row (as is the case
in any state the intended clearing behavior can produce), the entire lock
sequence leaves the locked mapping unchanged. -/
theorem C3_lock_above_top_discards (s : GameState) (fresh : Piece)
    (hneg : ∃ c ∈ get_cells s.current, c.2 < 0) :
    (lockStep s fresh).running = false ∧
    lockLoop (pieceColor s.current) (get_cells s.current) s.locked =
      (s.locked, false) ∧
    ((∀ r ∈ rowsDesc, rowFull (create_grid s.locked) r = false) →
      (lockStep s fresh).locked = s.locked) := by
  obtain ⟨c0, rest, hcells, hc0⟩ := get_cells_head_neg s.current hneg
  have hll : lockLoop (pieceColor s.current) (get_cells s.current) s.locked =
      (s.locked, false) := by
    rw [hcells]
    exact lockLoop_head_neg _ c0 rest s.locked hc0
  refine ⟨?_, hll, ?_⟩
  · show (lockStep s fresh).running = false
    unfold lockStep
    rw [hll]
  · intro hnofull
    show (lockStep s fresh).locked = s.locked
    unfold lockStep
    rw [hll]
    simp only
    rw [show clear_rows (create_grid s.locked) s.locked = (0, s.locked) from
      clearRowsGo_all_false (create_grid s.locked) rowsDesc s.locked hnofull]

/-- C3 witness: an O piece entirely above the board locks on an empty-ish
board; the session stops and the board is untouched. -/
theorem C3_lock_above_top_discards_witness :
    (lockStep stateC3 (pieceO 3 (-1))).running = false ∧
    (lockStep stateC3 (pieceO 3 (-1))).locked = stateC3.locked := by
  have h := C3_lock_above_top_discards stateC3 (pieceO 3 (-1)) (by decide)
  exact ⟨h.1, h.2.2 (by decide)⟩

/-- C4 amended: after every lock event that does not itself end the game,
the session promotes `nextPiece` to `currentPiece` and generates a fresh
`nextPiece`, but performs no placement check on the promoted piece — the
session keeps running even when the promoted piece's placement is invalid
(`gameOver` is not set; an unplaceable spawn only ends the game at some
later lock with a cell above the top). -/
theorem C4_promotion_without_validation (s : GameState) (fresh : Piece)
    (h : ∀ c ∈ get_cells s.current, 0 ≤ c.2) :
    (lockStep s fresh).current = s.next ∧
    (lockStep s fresh).next = fresh ∧
    (lockStep s fresh).running = true := by
  refine ⟨rfl, rfl, ?_⟩
  show (lockLoop (pieceColor s.current) (get_cells s.current) s.locked).2 = true
  exact lockLoop_nonneg_runs _ _ _ h

/-- C4 witness: the amended theorem applied at the concrete state of the
counterexample (whose lock indeed promotes and keeps running). -/
theorem C4_promotion_without_validation_witness :
    (lockStep stateC4 (pieceO 3 (-1))).current = stateC4.next ∧
    (lockStep stateC4 (pieceO 3 (-1))).next = pieceO 3 (-1) ∧
    (lockStep stateC4 (pieceO 3 (-1))).running = true :=
  C4_promotion_without_validation stateC4 (pieceO 3 (-1)) (by decide)

/-- C9: the bounds invariant `0 <= x < COLS` and `0 <= y < ROWS` on every
key of the locked mapping is preserved by the two operations that touch it:
the cell-writing loop of a lock (which only writes cells of a placement
accepted by `valid_space`, and skips everything once a cell has `y < 0`),
and `clear_rows` (which only deletes entries or moves an entry from `y` to
`y + 1 <= r < ROWS`). -/
theorem C9_locked_bounds_invariant :
    (∀ (p : Piece) (l : Locked), valid_space p l = true →
      inBoundsB l = true →
      inBoundsB (lockLoop (pieceColor p) (get_cells p) l).1 = true) ∧
    (∀ (g : Int → Int → Color) (l : Locked), inBoundsB l = true →
      inBoundsB (clear_rows g l).2 = true) := by
  constructor
  · intro p l hv hl
    exact inBoundsB_lockLoop (pieceColor p) (get_cells p) l
      (valid_space_cell_bounds p l hv) hl
  · intro g l hl
    exact inBoundsB_clearRowsGo g rowsDesc l
      (fun r hr => ((mem_rowsDesc r).mp hr).2) hl

/-- C9 witness: both parts of the invariant theorem applied at a concrete
piece and board. -/
theorem C9_locked_bounds_invariant_witness :
    inBoundsB (lockLoop (pieceColor (pieceO 4 18)) (get_cells (pieceO 4 18))
      [((4, 2), cyan)]).1 = true ∧
    inBoundsB (clear_rows (create_grid lockedC6) lockedC6).2 = true :=
  ⟨C9_locked_bounds_invariant.1 (pieceO 4 18) [((4, 2), cyan)]
      (by decide) (by decide),
   C9_locked_bounds_invariant.2 (create_grid lockedC6) lockedC6 (by decide)⟩

/-- C7: per lock event, when rows were cleared the total line count grows
by the cleared count and the score by the fixed table value (`scoreFor`);
the table maps 1, 2, 3, 4 to 100, 300, 500, 800 with fallback
`cleared * 200` outside it; the invariant `level = lines / 10 + 1` is
preserved across every lock event (the code recomputes the level only on
clearing locks, but a non-clearing lock changes neither side); and a
simultaneous 4-row clear adds exactly 800 to the score and 4 to the total
line count. -/
theorem C7_scoring_and_level (s : GameState) (fresh : Piece) :
    (0 < clearedOf s →
      (lockStep s fresh).lines = s.lines + clearedOf s ∧
      (lockStep s fresh).score = s.score + scoreFor (clearedOf s)) ∧
    (s.level = s.lines / 10 + 1 →
      (lockStep s fresh).level = (lockStep s fresh).lines / 10 + 1) ∧
    (scoreFor 1 = 100 ∧ scoreFor 2 = 300 ∧ scoreFor 3 = 500 ∧
      scoreFor 4 = 800) ∧
    (∀ n : Nat, 4 < n → scoreFor n = n * 200) ∧
    (clearedOf s = 4 →
      (lockStep s fresh).score = s.score + 800 ∧
      (lockStep s fresh).lines = s.lines + 4) := by
  have hlines : (lockStep s fresh).lines =
      if 0 < clearedOf s then s.lines + clearedOf s else s.lines := rfl
  have hscore : (lockStep s fresh).score =
      if 0 < clearedOf s then s.score + scoreFor (clearedOf s) else s.score :=
    rfl
  have hlevel : (lockStep s fresh).level =
      if 0 < clearedOf s then
        (if 0 < clearedOf s then s.lines + clearedOf s else s.lines) / 10 + 1
      else s.level := rfl
  refine ⟨?_, ?_, ⟨rfl, rfl, rfl, rfl⟩, ?_, ?_⟩
  · intro h
    rw [hlines, hscore, if_pos h, if_pos h]
    exact ⟨rfl, rfl⟩
  · intro hinv
    rw [hlevel, hlines]
    by_cases h : 0 < clearedOf s
    · rw [if_pos h, if_pos h]
    · rw [if_neg h, if_neg h]
      exact hinv
  · intro n hn
    obtain ⟨m, rfl⟩ : ∃ m, n = m + 5 := ⟨n - 5, by omega⟩
    rfl
  · intro h4
    rw [hlines, hscore, if_pos (by omega), if_pos (by omega), h4]
    exact ⟨rfl, rfl⟩

/-- C7 witness: an O piece completes row 19 (a single-row clear), earning
100 points, one line, and a level satisfying the invariant. -/
theorem C7_scoring_and_level_witness :
    (lockStep stateC7 (pieceO 3 (-1))).score =
      stateC7.score + scoreFor (clearedOf stateC7) ∧
    (lockStep stateC7 (pieceO 3 (-1))).level =
      (lockStep stateC7 (pieceO 3 (-1))).lines / 10 + 1 := by
  have h := C7_scoring_and_level stateC7 (pieceO 3 (-1))
  exact ⟨(h.1 (by decide)).2, h.2.1 (by decide)⟩

/-- The kick loop returns the shift by the first offset in the list whose
shifted placement is valid, and nothing when none is. -/
theorem tryKicks_eq_find (p : Piece) (l : Locked) :
    ∀ dxs : List Int,
      tryKicks dxs p l =
        (dxs.find? fun dx => valid_space (shiftX p dx) l).map (shiftX p) := by
  intro dxs
  induction dxs with
  | nil => rfl
  | cons dx rest ih =>
    unfold tryKicks
    by_cases h : valid_space (shiftX p dx) l = true
    · have hfind :
          List.find? (fun d => valid_space (shiftX p d) l) (dx :: rest) =
            some dx :=
        List.find?_cons_of_pos rest h
      rw [if_pos h, hfind]
      rfl
    · have hfind :
          List.find? (fun d => valid_space (shiftX p d) l) (dx :: rest) =
            List.find? (fun d => valid_space (shiftX p d) l) rest :=
        List.find?_cons_of_neg rest (by simpa using h)
      rw [if_neg h, hfind]
      exact ih

/-- Undoing a rotation advance restores the original piece, given an
in-range rotation index. -/
theorem rotRevert_rotAdvance (p : Piece) (h0 : 0 ≤ p.rot)
    (h1 : p.rot < numStates p) : rotRevert (rotAdvance p) = p := by
  obtain ⟨px, py, pi, pr⟩ := p
  unfold numStates at h1
  have h2 : 0 ≤ pr := h0
  have h3 : pr < ((SHAPES_ROT.getD pi []).length : Int) := h1
  clear h0 h1
  unfold rotRevert rotAdvance
  simp only [Piece.mk.injEq, true_and]
  simp only [numStates]
  set n : Int := ((SHAPES_ROT.getD pi []).length : Int) with hn
  by_cases hc : pr + 1 = n
  · rw [hc, Int.emod_self]
    have hm : (0 - 1 : Int) % n = (n - 1) % n := by
      rw [show (n - 1 : Int) = 0 - 1 + n * 1 by ring, Int.add_mul_emod_self_left]
    rw [hm, Int.emod_eq_of_lt (by omega) (by omega)]
    omega
  · have hlt : pr + 1 < n := by omega
    rw [Int.emod_eq_of_lt (by omega) hlt]
    simp only [Int.add_sub_cancel]
    exact Int.emod_eq_of_lt h2 h3

/-- C8: the rotate intent keeps the advanced rotation unshifted when it is
valid in place; otherwise the kick offsets -1, +1, -2, +2 are tried in
exactly that order with each failed offset fully reverted (the kick loop
equals a first-match search over that list), so a valid -1 shift is chosen
over any later kick; and when the rotation and all four kicks are invalid,
both the rotation index and the column revert to their pre-intent values,
leaving the piece unchanged. -/
theorem C8_rotation_kick_order (p : Piece) (l : Locked) :
    (valid_space (rotAdvance p) l = true →
      rotateIntent p l = rotAdvance p) ∧
    (valid_space (rotAdvance p) l = false →
      valid_space (shiftX (rotAdvance p) (-1)) l = true →
      rotateIntent p l = shiftX (rotAdvance p) (-1)) ∧
    (tryKicks [-1, 1, -2, 2] (rotAdvance p) l =
      ([-1, 1, -2, 2].find? fun dx =>
        valid_space (shiftX (rotAdvance p) dx) l).map (shiftX (rotAdvance p))) ∧
    (valid_space (rotAdvance p) l = false →
      (∀ dx ∈ [(-1 : Int), 1, -2, 2],
        valid_space (shiftX (rotAdvance p) dx) l = false) →
      0 ≤ p.rot → p.rot < numStates p →
      rotateIntent p l = p) := by
  refine ⟨?_, ?_, tryKicks_eq_find (rotAdvance p) l [-1, 1, -2, 2], ?_⟩
  · intro h
    unfold rotateIntent
    rw [if_pos h]
  · intro h h1
    unfold rotateIntent
    rw [if_neg (by simp [h])]
    show (match tryKicks [-1, 1, -2, 2] (rotAdvance p) l with
      | some q => q
      | none => rotRevert (rotAdvance p)) = shiftX (rotAdvance p) (-1)
    unfold tryKicks
    rw [if_pos h1]
  · intro h hall h0 h1
    unfold rotateIntent
    rw [if_neg (by simp [h])]
    show (match tryKicks [-1, 1, -2, 2] (rotAdvance p) l with
      | some q => q
      | none => rotRevert (rotAdvance p)) = p
    rw [tryKicks_eq_find (rotAdvance p) l [-1, 1, -2, 2],
      List.find?_eq_none.mpr (by intro dx hdx; simp [hall dx hdx])]
    exact rotRevert_rotAdvance p h0 h1

/-- C8 witness: an I piece rotated to vertical at column 7 is blocked by a
locked cell at `(7, 2)` but fits after the -1 kick, which the intent
chooses. -/
theorem C8_rotation_kick_order_witness :
    rotateIntent (pieceI 7 0) [((7, 2), cyan)] =
      shiftX (rotAdvance (pieceI 7 0)) (-1) :=
  (C8_rotation_kick_order (pieceI 7 0) [((7, 2), cyan)]).2.1
    (by decide) (by decide)

/-- A placement with a cell at or below the bottom wall is never valid. -/
theorem valid_space_false_of_bottom (p : Piece) (l : Locked)
    (h : ∃ c ∈ get_cells p, ROWS ≤ c.2) : valid_space p l = false := by
  obtain ⟨c, hc, hge⟩ := h
  cases hv : valid_space p l with
  | false => rfl
  | true =>
    exfalso
    have := (valid_space_cell_bounds p l hv c hc).2.2
    omega

/-- C10: `valid_space` is false as soon as any occupied cell's row reaches
`ROWS`, and therefore the hard-drop loop terminates: since every descent
step increases the piece's row by one, fuel `ROWS - y` suffices for the
loop to exit (for any piece occupying at least one cell, all of whose state
offsets have nonnegative rows, as all catalog states do). -/
theorem C10_hard_drop_terminates :
    (∀ (p : Piece) (l : Locked),
      (∃ c ∈ get_cells p, ROWS ≤ c.2) → valid_space p l = false) ∧
    (∀ (fuel : Nat) (p : Piece) (l : Locked),
      (∃ rc ∈ stateOf p, 0 ≤ rc.1) →
      ROWS ≤ p.y + (fuel : Int) →
      (hardDropAux fuel p l).isSome = true) := by
  constructor
  · exact valid_space_false_of_bottom
  · intro fuel
    induction fuel with
    | zero =>
      intro p l hst hf
      obtain ⟨rc, hrc, hr0⟩ := hst
      have hv : valid_space p l = false := by
        apply valid_space_false_of_bottom
        refine ⟨(p.x + rc.2, p.y + rc.1), List.mem_map_of_mem _ hrc, ?_⟩
        show ROWS ≤ p.y + rc.1
        simp only [Nat.cast_zero, add_zero] at hf
        omega
      unfold hardDropAux
      rw [hv]
      rfl
    | succ n ih =>
      intro p l hst hf
      unfold hardDropAux
      by_cases hv : valid_space p l = true
      · rw [hv]
        simp only [if_true]
        apply ih { p with y := p.y + 1 } l hst
        show ROWS ≤ p.y + 1 + (n : Int)
        push_cast at hf
        omega
      · rw [Bool.not_eq_true] at hv
        rw [hv]
        rfl

/-- C10 witness: both parts at concrete inputs — an O piece at the bottom
wall is invalid, and the hard-drop loop from the spawn row exits within 21
steps on the empty board. -/
theorem C10_hard_drop_terminates_witness :
    valid_space (pieceO 4 20) [] = false ∧
    (hardDropAux 21 (pieceO 4 (-1)) []).isSome = true :=
  ⟨C10_hard_drop_terminates.1 (pieceO 4 20) [] (by decide),
   C10_hard_drop_terminates.2 21 (pieceO 4 (-1)) [] (by decide) (by decide)⟩

end Tetris

